import Mathlib

/-!
A shallow embedding of the access-control enforcement engine of the kanidm
repository (src/lib/access.rs together with the entry plumbing of
src/lib/entry.rs), with theorems settling the specification claims about it.

Rust `BTreeMap<String, V>` values are embedded as association lists
`List (String × V)`; `BTreeSet` values appear as `List String` used with
set-like (membership / subset) operations, which is sound because every
property proved below is invariant under duplication and reordering of those
lists.  Fallible Rust functions returning `Result` are embedded with `Except`;
the five decision procedures never produce the `Err` arm in the source, so
they are embedded as total functions.
-/

namespace KanidmAccess

/-- An entry: a map from attribute name to a deduplicated, sorted sequence of
string values (src/lib/entry.rs, `Entry`).  The `uuid` field embeds the
`EntryValid` type-state payload (`valid.uuid`), which `get_uuid` returns. -/
structure Entry where
  uuid : String
  attrs : List (String × List String)
  deriving Repr, DecidableEq

/-- An entry whose attribute set has been reduced for external return
(src/lib/entry.rs, `Entry<EntryReduced, EntryCommitted>`). -/
structure ReducedEntry where
  attrs : List (String × List String)
  deriving Repr, DecidableEq

/-- `Entry::get_ava` (src/lib/entry.rs): the value list of an attribute. -/
def get_ava (e : Entry) (attr : String) : Option (List String) :=
  match e.attrs with
  | l => lookupAva l attr
where
  lookupAva : List (String × List String) → String → Option (List String)
    | [], _ => none
    | (k, v) :: rest, a => if k == a then some v else lookupAva rest a

/-- `Entry::get_ava_set` (src/lib/entry.rs): the value list viewed as a set. -/
def get_ava_set (e : Entry) (attr : String) : Option (List String) :=
  get_ava e attr

/-- `Entry::get_ava_single` (src/lib/entry.rs): returns `none` unless the
attribute holds exactly one value. -/
def get_ava_single (e : Entry) (attr : String) : Option String :=
  match get_ava e attr with
  | some vs => if vs.length != 1 then none else vs.head?
  | none => none

/-- `Entry::get_ava_names` (src/lib/entry.rs): the set of attribute names. -/
def get_ava_names (e : Entry) : List String :=
  e.attrs.map (fun p => p.1)

/-- `Entry::attribute_pres` (src/lib/entry.rs). -/
def attribute_pres (e : Entry) (attr : String) : Bool :=
  (get_ava e attr).isSome

/-- `Entry::attribute_equality` (src/lib/entry.rs): the value list holds the
value (the source uses `binary_search` on the sorted value vector). -/
def attribute_equality (e : Entry) (attr value : String) : Bool :=
  match get_ava e attr with
  | some vList => vList.contains value
  | none => false

/-- `Entry::attribute_value_pres` (src/lib/entry.rs): alias of
`attribute_equality`. -/
def attribute_value_pres (e : Entry) (attr value : String) : Bool :=
  attribute_equality e attr value

/-- Substring containment of character lists: `sub` occurs inside `v`
(embedding Rust `str::contains`). -/
def charsContain (v sub : List Char) : Bool :=
  isPre sub v || (match v with
    | [] => false
    | _ :: cs => charsContain cs sub)
where
  isPre : List Char → List Char → Bool
    | [], _ => true
    | _ :: _, [] => false
    | a :: as_, b :: bs => a == b && isPre as_ bs

/-- `Entry::attribute_substring` (src/lib/entry.rs): some value of the
attribute has the subvalue as a substring (fold with early exit). -/
def attribute_substring (e : Entry) (attr subvalue : String) : Bool :=
  match get_ava e attr with
  | some vList =>
      vList.foldl (fun acc v =>
        if acc then acc else charsContain v.toList subvalue.toList) false
  | none => false

/-- A resolved filter: a pure predicate tree over entries
(src/lib/entry.rs, `FilterResolved` as consumed by
`entry_match_no_index_inner`; filter.rs itself is not under src/). -/
inductive FilterResolved where
  | Eq (attr value : String)
  | Sub (attr subvalue : String)
  | Pres (attr : String)
  | Or (l : List FilterResolved)
  | And (l : List FilterResolved)
  | AndNot (f : FilterResolved)
  deriving Repr

mutual
/-- `Entry::entry_match_no_index_inner` (src/lib/entry.rs): recursive filter
evaluation against an entry; `Or`/`And` are folds with early exit. -/
def entry_match_no_index (e : Entry) : FilterResolved → Bool
  | .Eq attr value => attribute_equality e attr value
  | .Sub attr subvalue => attribute_substring e attr subvalue
  | .Pres attr => attribute_pres e attr
  | .Or l => matchOrList e l false
  | .And l => matchAndList e l true
  | .AndNot f => !(entry_match_no_index e f)

/-- The `Or` fold of `entry_match_no_index_inner`. -/
def matchOrList (e : Entry) : List FilterResolved → Bool → Bool
  | [], acc => acc
  | f :: fs, acc =>
      matchOrList e fs (if acc then acc else entry_match_no_index e f)

/-- The `And` fold of `entry_match_no_index_inner`. -/
def matchAndList (e : Entry) : List FilterResolved → Bool → Bool
  | [], acc => acc
  | f :: fs, acc =>
      matchAndList e fs (if acc then entry_match_no_index e f else acc)
end

/-- Modelled from the spec: the validated, pre-resolution filter form
(`Filter<FilterValid>` of filter.rs, which is not under src/).  Spec section 3:
a predicate tree over `Eq`, `Sub`, `Pres`, `And`, `Or`, `AndNot` plus a
`Self` sentinel that is resolved against the operation's event. -/
inductive FilterValid where
  | Eq (attr value : String)
  | Sub (attr subvalue : String)
  | Pres (attr : String)
  | Or (l : List FilterValid)
  | And (l : List FilterValid)
  | AndNot (f : FilterValid)
  | SelfF
  deriving Repr

/-- The origin carried by every event (src/lib/access.rs uses
`EventOrigin::Internal` and `EventOrigin::User(entry)`; event.rs is not under
src/, the shape is taken from the match arms in access.rs). -/
inductive EventOrigin where
  | Internal
  | User (e : Entry)
  deriving DecidableEq

mutual
/-- Modelled from the spec: filter resolution (filter.rs is not under src/).
Spec sections 3 and 6: resolution binds the `Self` sentinel to an equality
against the caller's uuid and is pure otherwise; an Internal event has no
caller entry, so resolving `Self` against it fails. -/
def FilterValid.resolve : FilterValid → EventOrigin → Option FilterResolved
  | .Eq attr value, _ => some (.Eq attr value)
  | .Sub attr subvalue, _ => some (.Sub attr subvalue)
  | .Pres attr, _ => some (.Pres attr)
  | .SelfF, .Internal => none
  | .SelfF, .User e => some (.Eq "uuid" e.uuid)
  | .Or l, o => (resolveList l o).map FilterResolved.Or
  | .And l, o => (resolveList l o).map FilterResolved.And
  | .AndNot f, o => (f.resolve o).map FilterResolved.AndNot

/-- Resolution of a filter list; any failing child fails the whole list. -/
def resolveList : List FilterValid → EventOrigin → Option (List FilterResolved)
  | [], _ => some []
  | f :: fs, o =>
      match f.resolve o, resolveList fs o with
      | some fr, some frs => some (fr :: frs)
      | _, _ => none
end

mutual
/-- Modelled from the spec: `Filter::get_attr_set` (filter.rs is not under
src/), the set of attribute names syntactically referenced by a filter
(spec section 4.2 step 3). -/
def FilterValid.get_attr_set : FilterValid → List String
  | .Eq attr _ => [attr]
  | .Sub attr _ => [attr]
  | .Pres attr => [attr]
  | .SelfF => []
  | .Or l => getAttrSetList l
  | .And l => getAttrSetList l
  | .AndNot f => f.get_attr_set

/-- Attribute names referenced by a list of filters. -/
def getAttrSetList : List FilterValid → List String
  | [] => []
  | f :: fs => f.get_attr_set ++ getAttrSetList fs
end

/-- A modify action (src/lib/entry.rs `apply_modlist` match arms; modify.rs is
not under src/, the three variants are taken from the match arms in
access.rs and entry.rs). -/
inductive Modify where
  | Present (attr value : String)
  | Removed (attr value : String)
  | Purged (attr : String)
  deriving Repr, DecidableEq

/-- A search event: origin plus the original request filter, of which
access.rs uses `se.event.origin` and `se.filter_orig`. -/
structure SearchEvent where
  origin : EventOrigin
  filterOrig : FilterValid

/-- A modify event: origin plus the modify list (`me.event.origin`,
`me.modlist`). -/
structure ModifyEvent where
  origin : EventOrigin
  modlist : List Modify

/-- A create event (`ce.event.origin`). -/
structure CreateEvent where
  origin : EventOrigin

/-- A delete event (`de.event.origin`). -/
structure DeleteEvent where
  origin : EventOrigin

/-- The common profile of every access control rule
(src/lib/access.rs, `AccessControlProfile`). -/
structure AccessControlProfile where
  name : String
  uuid : String
  receiver : FilterValid
  targetscope : FilterValid

/-- A search rule (src/lib/access.rs, `AccessControlSearch`). -/
structure AccessControlSearch where
  acp : AccessControlProfile
  attrs : List String

/-- A delete rule (src/lib/access.rs, `AccessControlDelete`). -/
structure AccessControlDelete where
  acp : AccessControlProfile

/-- A create rule (src/lib/access.rs, `AccessControlCreate`). -/
structure AccessControlCreate where
  acp : AccessControlProfile
  classes : List String
  attrs : List String

/-- A modify rule (src/lib/access.rs, `AccessControlModify`). -/
structure AccessControlModify where
  acp : AccessControlProfile
  classes : List String
  presattrs : List String
  remattrs : List String

/-- The four flavor maps (src/lib/access.rs, `AccessControlsInner`), with each
`BTreeMap<String, _>` embedded as an association list. -/
structure AccessControlsInner where
  acps_search : List (String × AccessControlSearch)
  acps_create : List (String × AccessControlCreate)
  acps_modify : List (String × AccessControlModify)
  acps_delete : List (String × AccessControlDelete)

/-- `AccessControlsInner::new` (src/lib/access.rs). -/
def AccessControlsInner.new : AccessControlsInner :=
  { acps_search := [], acps_create := [], acps_modify := [], acps_delete := [] }

/-- `BTreeSet::is_subset` as used on the requested/allowed attribute sets. -/
def subsetB (xs ys : List String) : Bool :=
  xs.all (fun a => ys.contains a)

/-- The receiver/target selection block that access.rs repeats in each
decision procedure: keep the elements whose filter (under `f`) resolves
against the event and matches the entry; a resolution failure skips the
element. -/
def filter_resolve_match {α : Type} (f : α → FilterValid) (o : EventOrigin)
    (e : Entry) (l : List α) : List α :=
  l.filterMap (fun x =>
    match (f x).resolve o with
    | some fres => if entry_match_no_index e fres then some x else none
    | none => none)

/-- The *related* search rules: those whose receiver filter resolves and
matches the caller's entry (src/lib/access.rs, `related_acp` in
`search_filter_entries` / `search_filter_entry_attributes`). -/
def related_acp_search (state : AccessControlsInner) (o : EventOrigin)
    (recEntry : Entry) : List AccessControlSearch :=
  filter_resolve_match (fun acs => acs.acp.receiver) o recEntry
    (state.acps_search.map (fun p => p.2))

/-- The allowed attribute set of one entry: union of `attrs` over the related
search rules whose target scope resolves and matches the entry
(src/lib/access.rs, `allowed_attrs` in both search procedures). -/
def allowed_attrs_search (related : List AccessControlSearch) (o : EventOrigin)
    (e : Entry) : List String :=
  (related.filterMap (fun acs =>
    match acs.acp.targetscope.resolve o with
    | some fres => if entry_match_no_index e fres then some acs.attrs else none
    | none => none)).flatten

/-- `search_filter_entries` (src/lib/access.rs): whole-entry search
enforcement.  Internal events bypass the check; a candidate entry is kept iff
the attributes referenced by the original request filter are a subset of the
attributes the caller may read on it. -/
def search_filter_entries (state : AccessControlsInner) (se : SearchEvent)
    (entries : List Entry) : List Entry :=
  match se.origin with
  | .Internal => entries
  | .User recEntry =>
    let relatedAcp := related_acp_search state se.origin recEntry
    let requestedAttrs := se.filterOrig.get_attr_set
    entries.filter (fun e =>
      subsetB requestedAttrs (allowed_attrs_search relatedAcp se.origin e))

/-- `Entry::reduce_attributes` (src/lib/entry.rs): remove every attribute not
in the allowed set, keeping the value lists of the survivors. -/
def reduce_attributes (e : Entry) (allowedAttrs : List String) : ReducedEntry :=
  { attrs := e.attrs.filter (fun kv => allowedAttrs.contains kv.1) }

/-- `search_filter_entry_attributes` (src/lib/access.rs): attribute reduction
of already-accepted search results.  Internal events get the empty list;
otherwise each entry is reduced to the attributes the caller may read. -/
def search_filter_entry_attributes (state : AccessControlsInner)
    (se : SearchEvent) (entries : List Entry) : List ReducedEntry :=
  match se.origin with
  | .Internal => []
  | .User recEntry =>
    let relatedAcp := related_acp_search state se.origin recEntry
    entries.map (fun e =>
      reduce_attributes e (allowed_attrs_search relatedAcp se.origin e))

/-- The `Present` attribute names requested by a modify list
(src/lib/access.rs, `requested_pres`). -/
def requested_pres (modlist : List Modify) : List String :=
  modlist.filterMap (fun m =>
    match m with
    | .Present a _ => some a
    | _ => none)

/-- The `Removed`/`Purged` attribute names requested by a modify list
(src/lib/access.rs, `requested_rem`). -/
def requested_rem (modlist : List Modify) : List String :=
  modlist.filterMap (fun m =>
    match m with
    | .Removed a _ => some a
    | .Purged a => some a
    | _ => none)

/-- The classes touched by a modify list (src/lib/access.rs,
`requested_classes`). -/
def requested_classes (modlist : List Modify) : List String :=
  modlist.filterMap (fun m =>
    match m with
    | .Present a v => if a == "class" then some v else none
    | .Removed a v => if a == "class" then some v else none
    | _ => none)

/-- The pre-check of `modify_allow_operation` (src/lib/access.rs): fold with
early exit detecting a `Purged("class")` action. -/
def purge_class_check (modlist : List Modify) : Bool :=
  modlist.foldl (fun acc m =>
    if acc then acc
    else
      match m with
      | .Purged a => a == "class"
      | _ => false) false

/-- `modify_allow_operation` (src/lib/access.rs): all-or-nothing modify
enforcement.  Internal events are permitted; purging `class` is denied before
any rule is consulted; otherwise every target entry must have its requested
present/removed/class sets covered by the union over its scoped rules. -/
def modify_allow_operation (state : AccessControlsInner) (me : ModifyEvent)
    (entries : List Entry) : Bool :=
  match me.origin with
  | .Internal => true
  | .User recEntry =>
    if purge_class_check me.modlist then false
    else
      let relatedAcp := filter_resolve_match (fun acm => acm.acp.receiver)
        me.origin recEntry (state.acps_modify.map (fun p => p.2))
      let requestedPres := requested_pres me.modlist
      let requestedRem := requested_rem me.modlist
      let requestedClasses := requested_classes me.modlist
      entries.foldl (fun acc e =>
        if acc == false then false
        else
          let scopedAcp := filter_resolve_match
            (fun acm => acm.acp.targetscope) me.origin e relatedAcp
          let allowedPres := (scopedAcp.map (fun acp => acp.presattrs)).flatten
          let allowedRem := (scopedAcp.map (fun acp => acp.remattrs)).flatten
          let allowedClasses := (scopedAcp.map (fun acp => acp.classes)).flatten
          if !(subsetB requestedPres allowedPres) then false
          else if !(subsetB requestedRem allowedRem) then false
          else if !(subsetB requestedClasses allowedClasses) then false
          else true) true

/-- `create_allow_operation` (src/lib/access.rs): every to-be-created entry
must be fully covered (attribute names and classes) by a single related rule
whose target matches it; an entry with no `class` attribute denies. -/
def create_allow_operation (state : AccessControlsInner) (ce : CreateEvent)
    (entries : List Entry) : Bool :=
  match ce.origin with
  | .Internal => true
  | .User recEntry =>
    let relatedAcp := filter_resolve_match (fun acs => acs.acp.receiver)
      ce.origin recEntry (state.acps_create.map (fun p => p.2))
    entries.foldl (fun acc e =>
      if acc == false then false
      else
        let createAttrs := get_ava_names e
        match get_ava_set e "class" with
        | none => false
        | some createClasses =>
          relatedAcp.foldl (fun racc accr =>
            if racc == true then racc
            else
              match accr.acp.targetscope.resolve ce.origin with
              | some fres =>
                if entry_match_no_index e fres then
                  let allowedAttrs := accr.attrs
                  let allowedClasses := accr.classes
                  if !(subsetB createAttrs allowedAttrs) then false
                  else if !(subsetB createClasses allowedClasses) then false
                  else true
                else false
              | none => false) false) true

/-- `delete_allow_operation` (src/lib/access.rs): every target entry must be
matched by the target scope of at least one related delete rule. -/
def delete_allow_operation (state : AccessControlsInner) (de : DeleteEvent)
    (entries : List Entry) : Bool :=
  match de.origin with
  | .Internal => true
  | .User recEntry =>
    let relatedAcp := filter_resolve_match (fun acd => acd.acp.receiver)
      de.origin recEntry (state.acps_delete.map (fun p => p.2))
    entries.foldl (fun acc e =>
      if acc == false then false
      else
        relatedAcp.foldl (fun racc acd =>
          if racc == true then racc
          else
            match acd.acp.targetscope.resolve de.origin with
            | some fres =>
              if entry_match_no_index e fres then true else false
            | none => false) false) true

/-- `BTreeMap::insert` on the association-list embedding: replace the value at
an existing key, or append the binding. -/
def btInsert {α : Type} : List (String × α) → String → α → List (String × α)
  | [], k, v => [(k, v)]
  | (k1, v1) :: rest, k, v =>
      if k1 == k then (k, v) :: rest else (k1, v1) :: btInsert rest k v

/-- `BTreeMap::get` on the association-list embedding. -/
def btFind {α : Type} : List (String × α) → String → Option α
  | [], _ => none
  | (k1, v1) :: rest, k => if k1 == k then some v1 else btFind rest k

/-- The shared body of the four `update_*` write operations
(src/lib/access.rs): clear the flavor map, then insert every supplied rule
keyed by the given key function. -/
def updFold {α : Type} (key : α → String) (acps : List α)
    (m : List (String × α)) : List (String × α) :=
  acps.foldl (fun mm a => btInsert mm (key a) a) m

/-- `AccessControlsWriteTransaction::update_search` (src/lib/access.rs). -/
def update_search (state : AccessControlsInner)
    (acps : List AccessControlSearch) : AccessControlsInner :=
  { state with acps_search := updFold (fun a => a.acp.uuid) acps [] }

/-- `AccessControlsWriteTransaction::update_create` (src/lib/access.rs). -/
def update_create (state : AccessControlsInner)
    (acps : List AccessControlCreate) : AccessControlsInner :=
  { state with acps_create := updFold (fun a => a.acp.uuid) acps [] }

/-- `AccessControlsWriteTransaction::update_modify` (src/lib/access.rs). -/
def update_modify (state : AccessControlsInner)
    (acps : List AccessControlModify) : AccessControlsInner :=
  { state with acps_modify := updFold (fun a => a.acp.uuid) acps [] }

/-- `AccessControlsWriteTransaction::update_delete` (src/lib/access.rs). -/
def update_delete (state : AccessControlsInner)
    (acps : List AccessControlDelete) : AccessControlsInner :=
  { state with acps_delete := updFold (fun a => a.acp.uuid) acps [] }

/-- Modelled from the spec: the error kinds surfaced by the rule parser
(error.rs is not under src/; spec section 7 names `InvalidACPState` and
`SchemaViolation`). -/
inductive SchemaError where
  | violation (detail : Nat)
  deriving Repr, DecidableEq

/-- Modelled from the spec: operation errors (error.rs is not under src/). -/
inductive OperationError where
  | InvalidACPState (reason : String)
  | SchemaViolation (e : SchemaError)
  deriving Repr, DecidableEq

/-- Modelled from the spec: the externally-defined JSON filter encoding
(proto v1, not under src/); spec section 6 gives the node shapes. -/
inductive ProtoFilter where
  | Eq (attr value : String)
  | Sub (attr subvalue : String)
  | Pres (attr : String)
  | And (l : List ProtoFilter)
  | Or (l : List ProtoFilter)
  | AndNot (f : ProtoFilter)
  | SelfP

/-- `AccessControlProfile::try_from` (src/lib/access.rs), parameterised over
the external collaborators that are not under src/: `parseJson` embeds the
`serde_json::from_str::<ProtoFilter>` call (`none` = parse failure),
`fromRw` embeds `Filter::from_rw` (whose intermediate type is `β`) and
`validateF` embeds `Filter::validate` against the schema.  The control flow —
class marker check, `name`, `acp_receiver` and `acp_targetscope` extraction,
then parse/convert/validate of receiver and target — is the source's. -/
def profile_try_from {β : Type} (parseJson : String → Option ProtoFilter)
    (fromRw : ProtoFilter → Except OperationError β)
    (validateF : β → Except SchemaError FilterValid)
    (value : Entry) : Except OperationError AccessControlProfile :=
  if !(attribute_value_pres value "class" "access_control_profile") then
    .error (.InvalidACPState "Missing access_control_profile")
  else
    match get_ava_single value "name" with
    | none => .error (.InvalidACPState "Missing name")
    | some name =>
      let uuid := value.uuid
      match get_ava_single value "acp_receiver" with
      | none => .error (.InvalidACPState "Missing acp_receiver")
      | some receiverRaw =>
        match get_ava_single value "acp_targetscope" with
        | none => .error (.InvalidACPState "Missing acp_targetscope")
        | some targetscopeRaw =>
          match parseJson receiverRaw with
          | none => .error (.InvalidACPState "Invalid acp_receiver")
          | some receiverF =>
            match fromRw receiverF with
            | .error e1 => .error e1
            | .ok receiverI =>
              match validateF receiverI with
              | .error e1 => .error (.SchemaViolation e1)
              | .ok receiver =>
                match parseJson targetscopeRaw with
                | none => .error (.InvalidACPState "Invalid acp_targetscope")
                | some targetscopeF =>
                  match fromRw targetscopeF with
                  | .error e1 => .error e1
                  | .ok targetscopeI =>
                    match validateF targetscopeI with
                    | .error e1 => .error (.SchemaViolation e1)
                    | .ok targetscope =>
                      .ok { name := name, uuid := uuid,
                            receiver := receiver, targetscope := targetscope }

/-!  Characterisation lemmas.  The decision procedures are folds with early
exit over candidate entries and rules; the lemmas below restate them as
quantified membership conditions, mirroring the additive rule semantics of
spec section 3. -/

/-- A fold `if acc == false then false else p x` starting at `b` is `b` and
the conjunction of `p` over the list. -/
theorem foldl_stop_false {α : Type} (p : α → Bool) (l : List α) (b : Bool) :
    l.foldl (fun acc x => if acc == false then false else p x) b
      = (b && l.all p) := by
  induction l generalizing b with
  | nil => cases b <;> simp
  | cons x xs ih =>
    cases b
    · simpa using ih false
    · simpa [Bool.and_assoc] using ih (p x)

/-- A fold `if acc == true then acc else q x` starting at `b` is `b` or the
disjunction of `q` over the list. -/
theorem foldl_stop_true {α : Type} (q : α → Bool) (l : List α) (b : Bool) :
    l.foldl (fun acc x => if acc == true then acc else q x) b
      = (b || l.any q) := by
  induction l generalizing b with
  | nil => cases b <;> simp
  | cons x xs ih =>
    cases b
    · simpa using ih (q x)
    · simpa using ih true

/-- A fold `if acc then acc else q x` starting at `b` is `b` or the
disjunction of `q` over the list. -/
theorem foldl_if_true {α : Type} (q : α → Bool) (l : List α) (b : Bool) :
    l.foldl (fun acc x => if acc then acc else q x) b = (b || l.any q) := by
  induction l generalizing b with
  | nil => cases b <;> simp
  | cons x xs ih =>
    cases b
    · simpa using ih (q x)
    · simpa using ih true

/-- `subsetB` is the Boolean form of list-membership inclusion. -/
theorem subsetB_iff (xs ys : List String) :
    subsetB xs ys = true ↔ ∀ a ∈ xs, a ∈ ys := by
  simp [subsetB]

/-- The receiver filter of a profile resolves against the event and matches
the caller's entry. -/
def receiver_matches (acp : AccessControlProfile) (o : EventOrigin)
    (recEntry : Entry) : Prop :=
  ∃ fr, acp.receiver.resolve o = some fr ∧
    entry_match_no_index recEntry fr = true

/-- The target scope of a profile resolves against the event and matches the
entry. -/
def target_matches (acp : AccessControlProfile) (o : EventOrigin)
    (e : Entry) : Prop :=
  ∃ fr, acp.targetscope.resolve o = some fr ∧ entry_match_no_index e fr = true

/-- Membership in the shared receiver/target selection block. -/
theorem mem_filter_resolve_match {α : Type} (f : α → FilterValid)
    (o : EventOrigin) (e : Entry) (l : List α) (x : α) :
    x ∈ filter_resolve_match f o e l ↔
      x ∈ l ∧ ∃ fr, (f x).resolve o = some fr ∧
        entry_match_no_index e fr = true := by
  simp only [filter_resolve_match, List.mem_filterMap]
  constructor
  · rintro ⟨y, hy, hyx⟩
    split at hyx
    · rename_i fr hr
      split at hyx
      · rename_i hm
        cases hyx
        exact ⟨hy, fr, hr, hm⟩
      · exact absurd hyx (by simp)
    · exact absurd hyx (by simp)
  · rintro ⟨hx, fr, hr, hm⟩
    exact ⟨x, hx, by simp [hr, hm]⟩

/-- Membership in the allowed attribute set of an entry, in terms of the
related search rules. -/
theorem mem_allowed_attrs_search (related : List AccessControlSearch)
    (o : EventOrigin) (e : Entry) (a : String) :
    a ∈ allowed_attrs_search related o e ↔
      ∃ acs ∈ related, target_matches acs.acp o e ∧ a ∈ acs.attrs := by
  simp only [allowed_attrs_search, List.mem_flatten, List.mem_filterMap]
  constructor
  · rintro ⟨s, ⟨acs, hacs, hs⟩, ha⟩
    split at hs
    · rename_i fr hr
      split at hs
      · rename_i hm
        cases hs
        exact ⟨acs, hacs, ⟨fr, hr, hm⟩, ha⟩
      · exact absurd hs (by simp)
    · exact absurd hs (by simp)
  · rintro ⟨acs, hacs, ⟨fr, hr, hm⟩, ha⟩
    exact ⟨acs.attrs, ⟨acs, hacs, by simp [hr, hm]⟩, ha⟩

/-- A search rule grants attribute `a` on entry `e` to the caller: the rule is
stored, its receiver matches the caller and its target matches the entry, and
`a` is among its `attrs` (spec sections 4.2 and 4.3). -/
def grants_search_attr (state : AccessControlsInner) (o : EventOrigin)
    (recEntry e : Entry) (a : String) : Prop :=
  ∃ p ∈ state.acps_search, receiver_matches p.2.acp o recEntry ∧
    target_matches p.2.acp o e ∧ a ∈ p.2.attrs

/-- The allowed attribute set computed by the search procedures is exactly the
set of attributes granted by some stored search rule. -/
theorem mem_allowed_full (state : AccessControlsInner) (o : EventOrigin)
    (recEntry e : Entry) (a : String) :
    a ∈ allowed_attrs_search (related_acp_search state o recEntry) o e ↔
      grants_search_attr state o recEntry e a := by
  rw [mem_allowed_attrs_search]
  simp only [grants_search_attr]
  constructor
  · rintro ⟨acs, hacs, ht, ha⟩
    rw [related_acp_search, mem_filter_resolve_match] at hacs
    rcases hacs with ⟨hmem, hrecv⟩
    rw [List.mem_map] at hmem
    rcases hmem with ⟨p, hp, rfl⟩
    exact ⟨p, hp, hrecv, ht, ha⟩
  · rintro ⟨p, hp, hrecv, ht, ha⟩
    refine ⟨p.2, ?_, ht, ha⟩
    rw [related_acp_search, mem_filter_resolve_match]
    exact ⟨List.mem_map_of_mem _ hp, hrecv⟩

/-- Membership characterisation of `search_filter_entries` for external
events: an entry is returned iff it is a candidate and every attribute
referenced by the request filter is granted on it by some stored rule. -/
theorem search_filter_entries_mem (state : AccessControlsInner)
    (se : SearchEvent) (recEntry : Entry) (entries : List Entry)
    (h : se.origin = .User recEntry) (e : Entry) :
    e ∈ search_filter_entries state se entries ↔
      e ∈ entries ∧ ∀ a ∈ se.filterOrig.get_attr_set,
        grants_search_attr state se.origin recEntry e a := by
  simp only [search_filter_entries, h]
  rw [List.mem_filter]
  constructor
  · rintro ⟨he, hs⟩
    rw [subsetB_iff] at hs
    exact ⟨he, fun a ha => (mem_allowed_full _ _ _ _ _).mp (hs a ha)⟩
  · rintro ⟨he, hg⟩
    refine ⟨he, ?_⟩
    rw [subsetB_iff]
    exact fun a ha => (mem_allowed_full _ _ _ _ _).mpr (hg a ha)

/-- The two-way guard chain of `create_allow_operation` is the conjunction of
its subset checks. -/
theorem ite_guard2 (s1 s2 : Bool) :
    (if !s1 then false else if !s2 then false else true) = (s1 && s2) := by
  cases s1 <;> cases s2 <;> simp

/-- The three-way guard chain of `modify_allow_operation` is the conjunction
of its subset checks. -/
theorem ite_guard3 (s1 s2 s3 : Bool) :
    (if !s1 then false else if !s2 then false else if !s3 then false else true)
      = (s1 && s2 && s3) := by
  cases s1 <;> cases s2 <;> cases s3 <;> simp

/-- The reducing search, for an external event, maps each entry to its
reduction by the allowed attribute set. -/
theorem search_filter_entry_attributes_eq (state : AccessControlsInner)
    (se : SearchEvent) (recEntry : Entry) (entries : List Entry)
    (h : se.origin = .User recEntry) :
    search_filter_entry_attributes state se entries =
      entries.map (fun e => reduce_attributes e
        (allowed_attrs_search (related_acp_search state se.origin recEntry)
          se.origin e)) := by
  simp only [search_filter_entry_attributes, h]

/-- Characterisation of `create_allow_operation` for external events: the
operation is permitted iff every to-be-created entry has a `class` attribute
and a single stored create rule whose receiver matches the caller, whose
target matches the entry, and whose `attrs`/`classes` cover the entry's
attribute names and class values. -/
theorem create_allow_iff (state : AccessControlsInner) (ce : CreateEvent)
    (recEntry : Entry) (entries : List Entry)
    (h : ce.origin = .User recEntry) :
    create_allow_operation state ce entries = true ↔
      ∀ e ∈ entries, ∃ cls, get_ava_set e "class" = some cls ∧
        ∃ p ∈ state.acps_create,
          receiver_matches p.2.acp ce.origin recEntry ∧
          target_matches p.2.acp ce.origin e ∧
          (∀ a ∈ get_ava_names e, a ∈ p.2.attrs) ∧
          (∀ c ∈ cls, c ∈ p.2.classes) := by
  simp only [create_allow_operation, h]
  rw [foldl_stop_false]
  simp only [Bool.true_and]
  rw [List.all_eq_true]
  refine forall_congr' fun e => imp_congr Iff.rfl ?_
  split
  case h_1 hcls => simp [hcls]
  case h_2 cls hcls =>
    rw [foldl_stop_true]
    simp only [Bool.false_or]
    rw [List.any_eq_true]
    constructor
    · rintro ⟨acs, hacs, hq⟩
      rw [mem_filter_resolve_match] at hacs
      rcases hacs with ⟨hmem, hrecv⟩
      rw [List.mem_map] at hmem
      rcases hmem with ⟨p, hp, rfl⟩
      split at hq
      · rename_i fres hr
        split at hq
        · rename_i hm
          rw [ite_guard2] at hq
          rw [Bool.and_eq_true] at hq
          exact ⟨cls, hcls, p, hp, hrecv, ⟨fres, hr, hm⟩,
            (subsetB_iff _ _).mp hq.1, (subsetB_iff _ _).mp hq.2⟩
        · exact absurd hq (by simp)
      · exact absurd hq (by simp)
    · rintro ⟨cls2, hcls2, p, hp, hrecv, ⟨fres, hr, hm⟩, hsub1, hsub2⟩
      rw [hcls] at hcls2
      cases hcls2
      refine ⟨p.2, ?_, ?_⟩
      · rw [mem_filter_resolve_match]
        exact ⟨List.mem_map_of_mem _ hp, hrecv⟩
      · have h1 : subsetB (get_ava_names e) p.2.attrs = true :=
          (subsetB_iff _ _).mpr hsub1
        have h2 : subsetB cls p.2.classes = true :=
          (subsetB_iff _ _).mpr hsub2
        simp [hr, hm, ite_guard2, h1, h2]

/-- Characterisation of `delete_allow_operation` for external events: the
operation is permitted iff every target entry is matched by the target scope
of a stored delete rule whose receiver matches the caller. -/
theorem delete_allow_iff (state : AccessControlsInner) (de : DeleteEvent)
    (recEntry : Entry) (entries : List Entry)
    (h : de.origin = .User recEntry) :
    delete_allow_operation state de entries = true ↔
      ∀ e ∈ entries, ∃ p ∈ state.acps_delete,
        receiver_matches p.2.acp de.origin recEntry ∧
        target_matches p.2.acp de.origin e := by
  simp only [delete_allow_operation, h]
  rw [foldl_stop_false]
  simp only [Bool.true_and]
  rw [List.all_eq_true]
  refine forall_congr' fun e => imp_congr Iff.rfl ?_
  rw [foldl_stop_true]
  simp only [Bool.false_or]
  rw [List.any_eq_true]
  constructor
  · rintro ⟨acd, hacd, hq⟩
    rw [mem_filter_resolve_match] at hacd
    rcases hacd with ⟨hmem, hrecv⟩
    rw [List.mem_map] at hmem
    rcases hmem with ⟨p, hp, rfl⟩
    split at hq
    · rename_i fres hr
      split at hq
      · rename_i hm
        exact ⟨p, hp, hrecv, fres, hr, hm⟩
      · exact absurd hq (by simp)
    · exact absurd hq (by simp)
  · rintro ⟨p, hp, hrecv, fres, hr, hm⟩
    refine ⟨p.2, ?_, ?_⟩
    · rw [mem_filter_resolve_match]
      exact ⟨List.mem_map_of_mem _ hp, hrecv⟩
    · simp [hr, hm]

/-- A modify rule grants a name (under the list selected by `sel`) on entry
`e` to the caller (spec section 4.4: the scoped rule set and its unions). -/
def grants_modify (sel : AccessControlModify → List String)
    (state : AccessControlsInner) (o : EventOrigin) (recEntry e : Entry)
    (a : String) : Prop :=
  ∃ p ∈ state.acps_modify, receiver_matches p.2.acp o recEntry ∧
    target_matches p.2.acp o e ∧ a ∈ sel p.2

/-- Membership in the per-entry allowed union built by
`modify_allow_operation` from the scoped rules. -/
theorem mem_scoped_flatten (sel : AccessControlModify → List String)
    (state : AccessControlsInner) (o : EventOrigin) (recEntry e : Entry)
    (a : String) :
    a ∈ ((filter_resolve_match (fun acm => acm.acp.targetscope) o e
        (filter_resolve_match (fun acm => acm.acp.receiver) o recEntry
          (state.acps_modify.map (fun p => p.2)))).map sel).flatten ↔
      grants_modify sel state o recEntry e a := by
  simp only [List.mem_flatten, List.mem_map, grants_modify]
  constructor
  · rintro ⟨s, ⟨acm, hacm, rfl⟩, ha⟩
    rw [mem_filter_resolve_match] at hacm
    rcases hacm with ⟨hrel, ht⟩
    rw [mem_filter_resolve_match] at hrel
    rcases hrel with ⟨hmem, hrecv⟩
    rw [List.mem_map] at hmem
    rcases hmem with ⟨p, hp, rfl⟩
    exact ⟨p, hp, hrecv, ht, ha⟩
  · rintro ⟨p, hp, hrecv, ht, ha⟩
    refine ⟨sel p.2, ⟨p.2, ?_, rfl⟩, ha⟩
    rw [mem_filter_resolve_match]
    refine ⟨?_, ht⟩
    rw [mem_filter_resolve_match]
    exact ⟨List.mem_map_of_mem _ hp, hrecv⟩

/-- Characterisation of `modify_allow_operation` for external events: the
operation is permitted iff no `Purged("class")` action is requested and, for
every target entry, each requested present/removed/class name is granted by
some stored modify rule scoped to that entry. -/
theorem modify_allow_iff (state : AccessControlsInner) (me : ModifyEvent)
    (recEntry : Entry) (entries : List Entry)
    (h : me.origin = .User recEntry) :
    modify_allow_operation state me entries = true ↔
      purge_class_check me.modlist = false ∧
      ∀ e ∈ entries,
        (∀ a ∈ requested_pres me.modlist,
          grants_modify (fun r => r.presattrs) state me.origin recEntry e a) ∧
        (∀ a ∈ requested_rem me.modlist,
          grants_modify (fun r => r.remattrs) state me.origin recEntry e a) ∧
        (∀ a ∈ requested_classes me.modlist,
          grants_modify (fun r => r.classes) state me.origin recEntry e a) := by
  simp only [modify_allow_operation, h]
  cases hp : purge_class_check me.modlist with
  | true => simp [hp]
  | false =>
    simp only [if_false, Bool.false_eq_true]
    rw [foldl_stop_false]
    simp only [Bool.true_and, eq_self_iff_true, true_and]
    rw [List.all_eq_true]
    refine forall_congr' fun e => imp_congr Iff.rfl ?_
    rw [ite_guard3]
    simp only [Bool.and_eq_true]
    rw [and_assoc]
    refine and_congr ?_ (and_congr ?_ ?_)
    · rw [subsetB_iff]
      exact forall₂_congr fun a _ =>
        mem_scoped_flatten _ state (EventOrigin.User recEntry) recEntry e a
    · rw [subsetB_iff]
      exact forall₂_congr fun a _ =>
        mem_scoped_flatten _ state (EventOrigin.User recEntry) recEntry e a
    · rw [subsetB_iff]
      exact forall₂_congr fun a _ =>
        mem_scoped_flatten _ state (EventOrigin.User recEntry) recEntry e a

/-- Boolean `List.contains` agrees with membership. -/
theorem contains_iff (l : List String) (a : String) :
    l.contains a = true ↔ a ∈ l := by
  simp

/-- Looking up the key just inserted finds the inserted value. -/
theorem btFind_btInsert_self {α : Type} (m : List (String × α)) (k : String)
    (v : α) : btFind (btInsert m k v) k = some v := by
  induction m with
  | nil => simp [btInsert, btFind]
  | cons kv rest ih =>
    obtain ⟨k1, v1⟩ := kv
    cases hk : (k1 == k) with
    | false => simp [btInsert, hk, btFind, ih]
    | true => simp [btInsert, hk, btFind]

/-- Insertion leaves lookups of other keys unchanged. -/
theorem btFind_btInsert_other {α : Type} (m : List (String × α)) (k k0 : String)
    (v : α) (h : k ≠ k0) : btFind (btInsert m k v) k0 = btFind m k0 := by
  induction m with
  | nil => simp [btInsert, btFind, h]
  | cons kv rest ih =>
    obtain ⟨k1, v1⟩ := kv
    cases hk : (k1 == k) with
    | false =>
      simp only [btInsert, hk, Bool.false_eq_true, if_false, btFind]
      split
      · rfl
      · exact ih
    | true =>
      have hk1 : k1 = k := by simpa using hk
      subst hk1
      simp [btInsert, btFind, h, ih]

/-- The last element of a list with the given key, scanning from the right
(the value a `BTreeMap` retains after inserting the whole list in order). -/
def lastWith {α : Type} (key : α → String) (k : String) : List α → Option α
  | [] => none
  | a :: rest =>
      match lastWith key k rest with
      | some r => some r
      | none => if key a == k then some a else none

/-- Lookup after the wholesale-replacement fold: the result for key `k` is the
last supplied element keyed `k`, else whatever the starting map held. -/
theorem btFind_updFold {α : Type} (key : α → String) (k : String)
    (acps : List α) (m : List (String × α)) :
    btFind (updFold key acps m) k =
      match lastWith key k acps with
      | some a => some a
      | none => btFind m k := by
  induction acps generalizing m with
  | nil => simp [updFold, lastWith]
  | cons a rest ih =>
    have step : updFold key (a :: rest) m
        = updFold key rest (btInsert m (key a) a) := rfl
    rw [step, ih]
    cases hl : lastWith key k rest with
    | some r => simp [lastWith, hl]
    | none =>
      simp only [lastWith, hl]
      by_cases hk : key a = k
      · subst hk
        simp [btFind_btInsert_self]
      · have hkb : (key a == k) = false := by simpa using hk
        simp [hkb, btFind_btInsert_other m (key a) k a hk]

/-- Membership after insertion: either an old binding or the new one. -/
theorem mem_btInsert {α : Type} (m : List (String × α)) (k : String) (v : α)
    (kv : String × α) (h : kv ∈ btInsert m k v) : kv ∈ m ∨ kv = (k, v) := by
  induction m with
  | nil => simpa [btInsert] using h
  | cons kv1 rest ih =>
    obtain ⟨k1, v1⟩ := kv1
    by_cases hk : (k1 == k) = true
    · simp only [btInsert, hk, if_true] at h
      rcases List.mem_cons.mp h with h1 | h1
      · exact Or.inr h1
      · exact Or.inl (List.mem_cons_of_mem _ h1)
    · simp only [btInsert, hk, if_false] at h
      rcases List.mem_cons.mp h with h1 | h1
      · exact Or.inl (by simp [h1])
      · rcases ih h1 with h2 | h2
        · exact Or.inl (List.mem_cons_of_mem _ h2)
        · exact Or.inr h2

/-- Every binding after the wholesale-replacement fold is either from the
starting map or a supplied element keyed by its own key. -/
theorem mem_updFold {α : Type} (key : α → String) (acps : List α)
    (m : List (String × α)) (kv : String × α) (h : kv ∈ updFold key acps m) :
    kv ∈ m ∨ (kv.2 ∈ acps ∧ key kv.2 = kv.1) := by
  induction acps generalizing m with
  | nil => exact Or.inl (by simpa [updFold] using h)
  | cons a rest ih =>
    have step : updFold key (a :: rest) m
        = updFold key rest (btInsert m (key a) a) := rfl
    rw [step] at h
    rcases ih (btInsert m (key a) a) h with h1 | h1
    · rcases mem_btInsert m (key a) a kv h1 with h2 | h2
      · exact Or.inl h2
      · subst h2
        exact Or.inr ⟨List.mem_cons_self _ _, rfl⟩
    · exact Or.inr ⟨List.mem_cons_of_mem _ h1.1, h1.2⟩

/-- The purge pre-check fires exactly when the modify list contains
`Purged("class")`. -/
theorem purge_class_check_true_iff (modlist : List Modify) :
    purge_class_check modlist = true ↔ Modify.Purged "class" ∈ modlist := by
  rw [purge_class_check, foldl_if_true]
  simp only [Bool.false_or]
  rw [List.any_eq_true]
  constructor
  · rintro ⟨m, hm, hq⟩
    cases m with
    | Purged a =>
      have : a = "class" := by simpa using hq
      subst this
      exact hm
    | Present a v => simp at hq
    | Removed a v => simp at hq
  · intro hm
    exact ⟨Modify.Purged "class", hm, by simp⟩

/-- A `Purged("class")` action denies every external modify before any rule is
consulted. -/
theorem modify_allow_purge_false (state : AccessControlsInner)
    (me : ModifyEvent) (entries : List Entry) (recEntry : Entry)
    (h : me.origin = .User recEntry)
    (hp : purge_class_check me.modlist = true) :
    modify_allow_operation state me entries = false := by
  simp [modify_allow_operation, h, hp]

/-- A nonempty modify list requests at least one present or removed name. -/
theorem requested_nonempty (modlist : List Modify) (h : modlist ≠ []) :
    (∃ a, a ∈ requested_pres modlist) ∨ ∃ a, a ∈ requested_rem modlist := by
  obtain ⟨m, hm⟩ := List.exists_mem_of_ne_nil modlist h
  cases m with
  | Present a v =>
    exact Or.inl ⟨a, by
      simp only [requested_pres, List.mem_filterMap]
      exact ⟨Modify.Present a v, hm, rfl⟩⟩
  | Removed a v =>
    exact Or.inr ⟨a, by
      simp only [requested_rem, List.mem_filterMap]
      exact ⟨Modify.Removed a v, hm, rfl⟩⟩
  | Purged a =>
    exact Or.inr ⟨a, by
      simp only [requested_rem, List.mem_filterMap]
      exact ⟨Modify.Purged a, hm, rfl⟩⟩

/-!  Concrete fixtures, mirroring the test data of access.rs (`admin`,
`testperson1`, and a rule with receiver `Eq("name","admin")` and target
`Eq("name","testperson1")`). -/

/-- The caller entry used in concrete instances. -/
def adminEntry : Entry :=
  { uuid := "00000000-0000-0000-0000-000000000001",
    attrs := [("class", ["object"]), ("name", ["admin"]),
              ("uuid", ["00000000-0000-0000-0000-000000000001"])] }

/-- The candidate entry used in concrete instances. -/
def personEntry : Entry :=
  { uuid := "cc8e95b4-c24f-4d68-ba54-8bed76f63930",
    attrs := [("class", ["object"]), ("name", ["testperson1"]),
              ("uuid", ["cc8e95b4-c24f-4d68-ba54-8bed76f63930"])] }

/-- An entry to be created in concrete instances. -/
def newPerson : Entry :=
  { uuid := "dddddddd-0000-0000-0000-000000000000",
    attrs := [("class", ["account"]), ("name", ["testperson1"])] }

/-- A concrete rule profile: receiver `admin`, target `testperson1`. -/
def testProfile : AccessControlProfile :=
  { name := "test_acp", uuid := "d38640c4-0254-49f9-99b7-8ba7d0233f3d",
    receiver := .Eq "name" "admin", targetscope := .Eq "name" "testperson1" }

/-- A concrete search rule granting `name`. -/
def testSearchRule : AccessControlSearch :=
  { acp := testProfile, attrs := ["name"] }

/-- A concrete create rule for `account` entries. -/
def testCreateRule : AccessControlCreate :=
  { acp := testProfile, classes := ["account"],
    attrs := ["class", "name", "uuid"] }

/-- A concrete modify rule. -/
def testModifyRule : AccessControlModify :=
  { acp := testProfile, classes := ["account"],
    presattrs := ["name", "class"], remattrs := ["name", "class"] }

/-- A concrete delete rule. -/
def testDeleteRule : AccessControlDelete := { acp := testProfile }

/-- A rule set holding one rule of each flavor. -/
def testState : AccessControlsInner :=
  { acps_search := [(testProfile.uuid, testSearchRule)],
    acps_create := [(testProfile.uuid, testCreateRule)],
    acps_modify := [(testProfile.uuid, testModifyRule)],
    acps_delete := [(testProfile.uuid, testDeleteRule)] }

/-- A concrete external search event by `admin` filtering on `name`. -/
def testSe : SearchEvent :=
  { origin := .User adminEntry, filterOrig := .Pres "name" }

/-- C1: for every external (User-origin) search event, every rule set and
every candidate entry `e`, the reducing search pairs `e` with a reduced
entry each of whose attributes is granted by some stored search rule whose
receiver matches the caller and whose target matches `e`; attributes outside
that union are removed, and surviving attributes keep the value list they
had on `e`. -/
theorem C1_reduced_attrs_subset (state : AccessControlsInner)
    (se : SearchEvent) (recEntry : Entry) (entries : List Entry)
    (h : se.origin = .User recEntry) :
    List.Forall₂ (fun (e : Entry) (r : ReducedEntry) =>
      (∀ kv ∈ r.attrs,
        grants_search_attr state se.origin recEntry e kv.1 ∧ kv ∈ e.attrs) ∧
      (∀ kv ∈ e.attrs,
        grants_search_attr state se.origin recEntry e kv.1 → kv ∈ r.attrs))
      entries (search_filter_entry_attributes state se entries) := by
  rw [search_filter_entry_attributes_eq state se recEntry entries h]
  rw [List.forall₂_map_right_iff]
  rw [List.forall₂_same]
  intro e he
  constructor
  · intro kv hkv
    simp only [reduce_attributes] at hkv
    rw [List.mem_filter] at hkv
    exact ⟨(mem_allowed_full _ _ _ _ _).mp ((contains_iff _ _).mp hkv.2), hkv.1⟩
  · intro kv hkv hg
    simp only [reduce_attributes]
    rw [List.mem_filter]
    exact ⟨hkv, (contains_iff _ _).mpr ((mem_allowed_full _ _ _ _ _).mpr hg)⟩

/-- C1 applied at a concrete external search: the surviving `name` attribute
of the reduced `testperson1` is granted by a stored rule and keeps its value
list. -/
theorem C1_witness :
    grants_search_attr testState testSe.origin adminEntry personEntry "name" ∧
      ("name", ["testperson1"]) ∈ personEntry.attrs := by
  have h := C1_reduced_attrs_subset testState testSe adminEntry [personEntry]
    rfl
  have heval : search_filter_entry_attributes testState testSe [personEntry]
      = [{ attrs := [("name", ["testperson1"])] }] := rfl
  rw [heval] at h
  rcases h with _ | ⟨hpair, _⟩
  exact hpair.1 ("name", ["testperson1"]) (by simp)

/-- C2: for every external (User-origin) search event and candidate list,
`search_filter_entries` returns a sub-list of the candidates holding exactly
those entries `e` for which every attribute syntactically referenced by the
original request filter is granted on `e` by some stored search rule whose
receiver matches the caller and whose target resolves and matches `e`. -/
theorem C2_search_filter_exact (state : AccessControlsInner)
    (se : SearchEvent) (recEntry : Entry) (entries : List Entry)
    (h : se.origin = .User recEntry) :
    (search_filter_entries state se entries).Sublist entries ∧
    ∀ e, e ∈ search_filter_entries state se entries ↔
      e ∈ entries ∧ ∀ a ∈ se.filterOrig.get_attr_set,
        grants_search_attr state se.origin recEntry e a := by
  refine ⟨?_, search_filter_entries_mem state se recEntry entries h⟩
  simp only [search_filter_entries, h]
  exact List.filter_sublist _

/-- C2 applied at a concrete external search: `testperson1` is returned, and
the theorem yields that the requested `name` attribute is granted on it. -/
theorem C2_witness :
    grants_search_attr testState testSe.origin adminEntry personEntry
      "name" := by
  have h := (C2_search_filter_exact testState testSe adminEntry [personEntry]
    rfl).2 personEntry
  have hmem : personEntry ∈ search_filter_entries testState testSe
      [personEntry] := by
    rw [show search_filter_entries testState testSe [personEntry]
        = [personEntry] from rfl]
    simp
  exact (h.mp hmem).2 "name" (by simp [testSe, FilterValid.get_attr_set])

/-- C3: for every external (User-origin) create event, the operation is
permitted iff every to-be-created entry has a `class` attribute and there is
a single stored create rule whose receiver matches the caller, whose target
matches the entry, and whose `attrs` and `classes` both cover the entry —
attribute and class permissions never union across distinct rules. -/
theorem C3_create_single_rule (state : AccessControlsInner) (ce : CreateEvent)
    (recEntry : Entry) (entries : List Entry)
    (h : ce.origin = .User recEntry) :
    create_allow_operation state ce entries = true ↔
      ∀ e ∈ entries, ∃ cls, get_ava_set e "class" = some cls ∧
        ∃ p ∈ state.acps_create,
          receiver_matches p.2.acp ce.origin recEntry ∧
          target_matches p.2.acp ce.origin e ∧
          (∀ a ∈ get_ava_names e, a ∈ p.2.attrs) ∧
          (∀ c ∈ cls, c ∈ p.2.classes) :=
  create_allow_iff state ce recEntry entries h

/-- C3 applied at a concrete external create: the single stored rule covers
the new entry, so the operation is permitted. -/
theorem C3_witness :
    create_allow_operation testState { origin := .User adminEntry }
      [newPerson] = true := by
  refine (C3_create_single_rule testState { origin := .User adminEntry }
    adminEntry [newPerson] rfl).mpr ?_
  intro e he
  have he2 : e = newPerson := by simpa using he
  subst he2
  refine ⟨["account"], rfl, (testProfile.uuid, testCreateRule),
    by simp [testState],
    ⟨.Eq "name" "admin", rfl, by decide⟩,
    ⟨.Eq "name" "testperson1", rfl, by decide⟩, by decide, by decide⟩

/-- C4 counterexample: an Internal-origin modify whose modify list contains
`Purged("class")` is permitted, because the Internal bypass runs before the
purge pre-check; the claim demands `false` for every origin. -/
theorem C4_counterexample :
    Modify.Purged "class" ∈ [Modify.Purged "class"] ∧
    modify_allow_operation AccessControlsInner.new
      { origin := .Internal, modlist := [Modify.Purged "class"] } []
      = true :=
  ⟨by simp, rfl⟩

/-- C4 (amended): for every external (User-origin) modify event whose modify
list contains `Purged("class")`, `modify_allow_operation` returns `false`
regardless of the rule set and the target entries; an Internal-origin event
bypasses the check and is permitted. -/
theorem C4_amended (state : AccessControlsInner) (me : ModifyEvent)
    (entries : List Entry) (recEntry : Entry)
    (h : me.origin = .User recEntry)
    (hm : Modify.Purged "class" ∈ me.modlist) :
    modify_allow_operation state me entries = false :=
  modify_allow_purge_false state me entries recEntry h
    ((purge_class_check_true_iff _).mpr hm)

/-- C4 applied at a concrete external modify containing `Purged("class")`. -/
theorem C4_witness :
    modify_allow_operation testState
      { origin := .User adminEntry, modlist := [Modify.Purged "class"] }
      [personEntry] = false :=
  C4_amended testState
    { origin := .User adminEntry, modlist := [Modify.Purged "class"] }
    [personEntry] adminEntry rfl (by simp)

/-- C5: for every rule set and input, an Internal-origin event makes
`create_allow`, `modify_allow` and `delete_allow` return `true`, makes
`search_filter_entries` return its candidate list unchanged, and makes
`search_filter_entry_attributes` return the empty list. -/
theorem C5_internal_bypass (state : AccessControlsInner)
    (modlist : List Modify) (entries : List Entry) (fo : FilterValid) :
    create_allow_operation state { origin := .Internal } entries = true ∧
    modify_allow_operation state { origin := .Internal, modlist := modlist }
      entries = true ∧
    delete_allow_operation state { origin := .Internal } entries = true ∧
    search_filter_entries state { origin := .Internal, filterOrig := fo }
      entries = entries ∧
    search_filter_entry_attributes state
      { origin := .Internal, filterOrig := fo } entries = [] :=
  ⟨rfl, rfl, rfl, rfl, rfl⟩

/-- Adding a search rule preserves every granted attribute. -/
theorem grants_search_attr_mono (state : AccessControlsInner)
    (kv : String × AccessControlSearch) (o : EventOrigin)
    (recEntry e : Entry) (a : String)
    (h : grants_search_attr state o recEntry e a) :
    grants_search_attr
      { state with acps_search := kv :: state.acps_search } o recEntry e a := by
  simp only [grants_search_attr] at h ⊢
  obtain ⟨p, hp, hr⟩ := h
  exact ⟨p, List.mem_cons_of_mem _ hp, hr⟩

/-- Adding a modify rule preserves every granted name. -/
theorem grants_modify_mono (sel : AccessControlModify → List String)
    (state : AccessControlsInner) (kv : String × AccessControlModify)
    (o : EventOrigin) (recEntry e : Entry) (a : String)
    (h : grants_modify sel state o recEntry e a) :
    grants_modify sel
      { state with acps_modify := kv :: state.acps_modify } o recEntry e a := by
  simp only [grants_modify] at h ⊢
  obtain ⟨p, hp, hr⟩ := h
  exact ⟨p, List.mem_cons_of_mem _ hp, hr⟩

/-- C6 counterexample: with no search rules at all, the reducing search over
one candidate returns one fully-stripped reduced entry — not the empty list
the claim demands for every input. -/
theorem C6_counterexample :
    AccessControlsInner.new.acps_search = [] ∧
    search_filter_entry_attributes AccessControlsInner.new
      { origin := .User adminEntry, filterOrig := .Pres "name" }
      [personEntry]
      = [{ attrs := [] }] :=
  ⟨rfl, rfl⟩

/-- C6 (amended): with no rules of the relevant flavor, external decisions
deny whenever the input is non-vacuous: create and delete deny for every
nonempty entry list; modify denies whenever both the modify list and the
target list are nonempty; the filtering search returns the empty list
whenever the request filter references at least one attribute; and the
reducing search returns one reduced entry per candidate, each with an empty
attribute map. -/
theorem C6_amended :
    (∀ (state : AccessControlsInner) (ce : CreateEvent)
      (entries : List Entry) (recEntry : Entry),
      ce.origin = .User recEntry → state.acps_create = [] → entries ≠ [] →
      create_allow_operation state ce entries = false) ∧
    (∀ (state : AccessControlsInner) (de : DeleteEvent)
      (entries : List Entry) (recEntry : Entry),
      de.origin = .User recEntry → state.acps_delete = [] → entries ≠ [] →
      delete_allow_operation state de entries = false) ∧
    (∀ (state : AccessControlsInner) (me : ModifyEvent)
      (entries : List Entry) (recEntry : Entry),
      me.origin = .User recEntry → state.acps_modify = [] →
      me.modlist ≠ [] → entries ≠ [] →
      modify_allow_operation state me entries = false) ∧
    (∀ (state : AccessControlsInner) (se : SearchEvent)
      (entries : List Entry) (recEntry : Entry),
      se.origin = .User recEntry → state.acps_search = [] →
      se.filterOrig.get_attr_set ≠ [] →
      search_filter_entries state se entries = []) ∧
    (∀ (state : AccessControlsInner) (se : SearchEvent)
      (entries : List Entry) (recEntry : Entry),
      se.origin = .User recEntry → state.acps_search = [] →
      search_filter_entry_attributes state se entries
        = entries.map (fun _ => ({ attrs := [] } : ReducedEntry))) := by
  refine ⟨?_, ?_, ?_, ?_, ?_⟩
  · intro state ce entries recEntry h hemp hne
    cases hval : create_allow_operation state ce entries with
    | false => rfl
    | true =>
      exfalso
      have hall := (create_allow_iff state ce recEntry entries h).mp hval
      obtain ⟨e, he⟩ := List.exists_mem_of_ne_nil entries hne
      obtain ⟨cls, _, p, hp, _⟩ := hall e he
      rw [hemp] at hp
      simp at hp
  · intro state de entries recEntry h hemp hne
    cases hval : delete_allow_operation state de entries with
    | false => rfl
    | true =>
      exfalso
      have hall := (delete_allow_iff state de recEntry entries h).mp hval
      obtain ⟨e, he⟩ := List.exists_mem_of_ne_nil entries hne
      obtain ⟨p, hp, _⟩ := hall e he
      rw [hemp] at hp
      simp at hp
  · intro state me entries recEntry h hemp hml hne
    cases hpc : purge_class_check me.modlist with
    | true => exact modify_allow_purge_false state me entries recEntry h hpc
    | false =>
      cases hval : modify_allow_operation state me entries with
      | false => rfl
      | true =>
        exfalso
        have hall := ((modify_allow_iff state me recEntry entries h).mp hval).2
        obtain ⟨e, he⟩ := List.exists_mem_of_ne_nil entries hne
        have he2 := hall e he
        rcases requested_nonempty me.modlist hml with ⟨a, ha⟩ | ⟨a, ha⟩
        · obtain ⟨p, hp, -⟩ := he2.1 a ha
          rw [hemp] at hp
          simp at hp
        · obtain ⟨p, hp, -⟩ := he2.2.1 a ha
          rw [hemp] at hp
          simp at hp
  · intro state se entries recEntry h hemp hf
    rw [List.eq_nil_iff_forall_not_mem]
    intro e hmem
    have hch := (search_filter_entries_mem state se recEntry entries h e).mp
      hmem
    obtain ⟨a, ha⟩ := List.exists_mem_of_ne_nil _ hf
    obtain ⟨p, hp, -⟩ := hch.2 a ha
    rw [hemp] at hp
    simp at hp
  · intro state se entries recEntry h hemp
    rw [search_filter_entry_attributes_eq state se recEntry entries h]
    have hrel : related_acp_search state se.origin recEntry = [] := by
      rw [related_acp_search, hemp]
      rfl
    rw [hrel]
    apply List.map_congr_left
    intro e he
    simp [reduce_attributes, allowed_attrs_search]

/-- C6 applied at a concrete input: with no create rules, an external create
of one entry is denied. -/
theorem C6_witness :
    create_allow_operation AccessControlsInner.new
      { origin := .User adminEntry } [newPerson] = false :=
  C6_amended.1 AccessControlsInner.new { origin := .User adminEntry }
    [newPerson] adminEntry rfl rfl (by simp)

/-- C7: adding a rule to the relevant flavor map never shrinks a decision:
permitted creates, modifies and deletes remain permitted, every entry
returned by the filtering search is still returned, and every attribute
surviving reduction still survives (pairwise over the reduced lists). -/
theorem C7_monotone :
    (∀ (state : AccessControlsInner) (kv : String × AccessControlCreate)
      (ce : CreateEvent) (entries : List Entry),
      create_allow_operation state ce entries = true →
      create_allow_operation
        { state with acps_create := kv :: state.acps_create } ce entries
        = true) ∧
    (∀ (state : AccessControlsInner) (kv : String × AccessControlModify)
      (me : ModifyEvent) (entries : List Entry),
      modify_allow_operation state me entries = true →
      modify_allow_operation
        { state with acps_modify := kv :: state.acps_modify } me entries
        = true) ∧
    (∀ (state : AccessControlsInner) (kv : String × AccessControlDelete)
      (de : DeleteEvent) (entries : List Entry),
      delete_allow_operation state de entries = true →
      delete_allow_operation
        { state with acps_delete := kv :: state.acps_delete } de entries
        = true) ∧
    (∀ (state : AccessControlsInner) (kv : String × AccessControlSearch)
      (se : SearchEvent) (entries : List Entry) (e : Entry),
      e ∈ search_filter_entries state se entries →
      e ∈ search_filter_entries
        { state with acps_search := kv :: state.acps_search } se entries) ∧
    (∀ (state : AccessControlsInner) (kv : String × AccessControlSearch)
      (se : SearchEvent) (entries : List Entry),
      List.Forall₂ (fun (r r1 : ReducedEntry) => ∀ kvp ∈ r.attrs,
          kvp ∈ r1.attrs)
        (search_filter_entry_attributes state se entries)
        (search_filter_entry_attributes
          { state with acps_search := kv :: state.acps_search } se
          entries)) := by
  refine ⟨?_, ?_, ?_, ?_, ?_⟩
  · intro state kv ce entries hval
    cases ho : ce.origin with
    | Internal => simp [create_allow_operation, ho]
    | User recEntry =>
      rw [create_allow_iff state ce recEntry entries ho] at hval
      rw [create_allow_iff _ ce recEntry entries ho]
      intro e he
      obtain ⟨cls, hcls, p, hp, hrest⟩ := hval e he
      exact ⟨cls, hcls, p, List.mem_cons_of_mem _ hp, hrest⟩
  · intro state kv me entries hval
    cases ho : me.origin with
    | Internal => simp [modify_allow_operation, ho]
    | User recEntry =>
      rw [modify_allow_iff state me recEntry entries ho] at hval
      rw [modify_allow_iff _ me recEntry entries ho]
      obtain ⟨hpc, hall⟩ := hval
      refine ⟨hpc, fun e he => ?_⟩
      obtain ⟨h1, h2, h3⟩ := hall e he
      exact ⟨fun a ha => grants_modify_mono _ state kv _ _ _ _ (h1 a ha),
        fun a ha => grants_modify_mono _ state kv _ _ _ _ (h2 a ha),
        fun a ha => grants_modify_mono _ state kv _ _ _ _ (h3 a ha)⟩
  · intro state kv de entries hval
    cases ho : de.origin with
    | Internal => simp [delete_allow_operation, ho]
    | User recEntry =>
      rw [delete_allow_iff state de recEntry entries ho] at hval
      rw [delete_allow_iff _ de recEntry entries ho]
      intro e he
      obtain ⟨p, hp, hrest⟩ := hval e he
      exact ⟨p, List.mem_cons_of_mem _ hp, hrest⟩
  · intro state kv se entries e hmem
    cases ho : se.origin with
    | Internal => simpa [search_filter_entries, ho] using hmem
    | User recEntry =>
      rw [search_filter_entries_mem state se recEntry entries ho] at hmem
      rw [search_filter_entries_mem _ se recEntry entries ho]
      exact ⟨hmem.1,
        fun a ha => grants_search_attr_mono state kv _ _ _ _ (hmem.2 a ha)⟩
  · intro state kv se entries
    cases ho : se.origin with
    | Internal =>
      simp only [search_filter_entry_attributes, ho]
      exact List.Forall₂.nil
    | User recEntry =>
      rw [search_filter_entry_attributes_eq state se recEntry entries ho]
      rw [search_filter_entry_attributes_eq _ se recEntry entries ho]
      induction entries with
      | nil => exact List.Forall₂.nil
      | cons e es ih =>
        simp only [List.map_cons]
        refine List.Forall₂.cons ?_ ih
        intro kvp hkvp
        simp only [reduce_attributes] at hkvp ⊢
        rw [List.mem_filter] at hkvp ⊢
        refine ⟨hkvp.1, ?_⟩
        have hg := (mem_allowed_full state se.origin recEntry e kvp.1).mp
          ((contains_iff _ _).mp hkvp.2)
        have hg2 := grants_search_attr_mono state kv se.origin recEntry e
          kvp.1 hg
        exact (contains_iff _ _).mpr
          ((mem_allowed_full _ se.origin recEntry e kvp.1).mpr hg2)

/-- C7 applied at a concrete input: a permitted create stays permitted after
adding a rule to the create flavor map. -/
theorem C7_witness :
    create_allow_operation
      { testState with
          acps_create := (testProfile.uuid, testCreateRule)
            :: testState.acps_create }
      { origin := .User adminEntry } [newPerson] = true :=
  C7_monotone.1 testState (testProfile.uuid, testCreateRule)
    { origin := .User adminEntry } [newPerson] (by decide)

/-- The wholesale-replacement fold from the empty map: lookup is the last
supplied element under the key, and every stored binding is a supplied
element keyed by its own key. -/
theorem updFold_spec {α : Type} (key : α → String) (acps : List α) :
    (∀ k, btFind (updFold key acps []) k = lastWith key k acps) ∧
    (∀ kv ∈ updFold key acps [], kv.2 ∈ acps ∧ key kv.2 = kv.1) := by
  constructor
  · intro k
    rw [btFind_updFold]
    cases hl : lastWith key k acps <;> simp [hl, btFind]
  · intro kv hkv
    rcases mem_updFold key acps [] kv hkv with h | h
    · simp at h
    · exact h

/-- C9: each `update_*` operation replaces only its own flavor map: the other
three maps are unchanged, lookup in the replaced map yields exactly the last
supplied rule with that uuid (so nothing from the previous map survives), and
every stored binding is a supplied rule keyed by its own uuid. -/
theorem C9_update_replaces :
    (∀ (state : AccessControlsInner) (acps : List AccessControlSearch),
      (update_search state acps).acps_create = state.acps_create ∧
      (update_search state acps).acps_modify = state.acps_modify ∧
      (update_search state acps).acps_delete = state.acps_delete ∧
      (∀ k, btFind (update_search state acps).acps_search k
          = lastWith (fun a => a.acp.uuid) k acps) ∧
      (∀ kv ∈ (update_search state acps).acps_search,
        kv.2 ∈ acps ∧ kv.2.acp.uuid = kv.1)) ∧
    (∀ (state : AccessControlsInner) (acps : List AccessControlCreate),
      (update_create state acps).acps_search = state.acps_search ∧
      (update_create state acps).acps_modify = state.acps_modify ∧
      (update_create state acps).acps_delete = state.acps_delete ∧
      (∀ k, btFind (update_create state acps).acps_create k
          = lastWith (fun a => a.acp.uuid) k acps) ∧
      (∀ kv ∈ (update_create state acps).acps_create,
        kv.2 ∈ acps ∧ kv.2.acp.uuid = kv.1)) ∧
    (∀ (state : AccessControlsInner) (acps : List AccessControlModify),
      (update_modify state acps).acps_search = state.acps_search ∧
      (update_modify state acps).acps_create = state.acps_create ∧
      (update_modify state acps).acps_delete = state.acps_delete ∧
      (∀ k, btFind (update_modify state acps).acps_modify k
          = lastWith (fun a => a.acp.uuid) k acps) ∧
      (∀ kv ∈ (update_modify state acps).acps_modify,
        kv.2 ∈ acps ∧ kv.2.acp.uuid = kv.1)) ∧
    (∀ (state : AccessControlsInner) (acps : List AccessControlDelete),
      (update_delete state acps).acps_search = state.acps_search ∧
      (update_delete state acps).acps_create = state.acps_create ∧
      (update_delete state acps).acps_modify = state.acps_modify ∧
      (∀ k, btFind (update_delete state acps).acps_delete k
          = lastWith (fun a => a.acp.uuid) k acps) ∧
      (∀ kv ∈ (update_delete state acps).acps_delete,
        kv.2 ∈ acps ∧ kv.2.acp.uuid = kv.1)) := by
  refine ⟨fun state acps => ?_, fun state acps => ?_,
    fun state acps => ?_, fun state acps => ?_⟩
  · exact ⟨rfl, rfl, rfl,
      (updFold_spec (fun a : AccessControlSearch => a.acp.uuid) acps).1,
      (updFold_spec (fun a : AccessControlSearch => a.acp.uuid) acps).2⟩
  · exact ⟨rfl, rfl, rfl,
      (updFold_spec (fun a : AccessControlCreate => a.acp.uuid) acps).1,
      (updFold_spec (fun a : AccessControlCreate => a.acp.uuid) acps).2⟩
  · exact ⟨rfl, rfl, rfl,
      (updFold_spec (fun a : AccessControlModify => a.acp.uuid) acps).1,
      (updFold_spec (fun a : AccessControlModify => a.acp.uuid) acps).2⟩
  · exact ⟨rfl, rfl, rfl,
      (updFold_spec (fun a : AccessControlDelete => a.acp.uuid) acps).1,
      (updFold_spec (fun a : AccessControlDelete => a.acp.uuid) acps).2⟩

/-- C9 applied at a concrete input: after replacing the search map with one
rule, the stored binding is that rule keyed by its own uuid. -/
theorem C9_witness :
    testSearchRule ∈ [testSearchRule] ∧
      testSearchRule.acp.uuid = testProfile.uuid := by
  have h := (C9_update_replaces.1 AccessControlsInner.new
    [testSearchRule]).2.2.2.2 (testProfile.uuid, testSearchRule)
    (by simp [update_search, updFold, btInsert, AccessControlsInner.new,
      testSearchRule])
  exact h

/-- C10: for every external (User-origin) event and every rule set including
the empty one, an empty entries list makes create, modify (when no
`Purged("class")` is requested) and delete return `true`: the all-entries
check is vacuously satisfied. -/
theorem C10_empty_entries (state : AccessControlsInner) (recEntry : Entry)
    (modlist : List Modify)
    (hm : Modify.Purged "class" ∉ modlist) :
    create_allow_operation state { origin := .User recEntry } [] = true ∧
    modify_allow_operation state
      { origin := .User recEntry, modlist := modlist } [] = true ∧
    delete_allow_operation state { origin := .User recEntry } [] = true := by
  have hp : purge_class_check modlist = false := by
    cases hval : purge_class_check modlist with
    | false => rfl
    | true => exact absurd ((purge_class_check_true_iff _).mp hval) hm
  exact ⟨rfl, by simp [modify_allow_operation, hp], rfl⟩

/-- C10 applied at a concrete input: empty creates, modifies and deletes are
permitted even though the rule set is empty. -/
theorem C10_witness :
    create_allow_operation AccessControlsInner.new
      { origin := .User adminEntry } [] = true ∧
    modify_allow_operation AccessControlsInner.new
      { origin := .User adminEntry,
        modlist := [Modify.Present "name" "x"] } [] = true ∧
    delete_allow_operation AccessControlsInner.new
      { origin := .User adminEntry } [] = true :=
  C10_empty_entries AccessControlsInner.new adminEntry
    [Modify.Present "name" "x"] (by simp)

/-- A stored rule entry whose `acp_receiver` string does not parse and whose
`acp_targetscope` attribute is missing. -/
def c8ReceiverEntry : Entry :=
  { uuid := "cc8e95b4-c24f-4d68-ba54-8bed76f63930",
    attrs := [("acp_receiver", ["notjson"]),
              ("class", ["access_control_profile", "object"]),
              ("name", ["acp_invalid"]),
              ("uuid", ["cc8e95b4-c24f-4d68-ba54-8bed76f63930"])] }

/-- A stored rule entry carrying the marker class but no `name`. -/
def c8NoNameEntry : Entry :=
  { uuid := "cc8e95b4-c24f-4d68-ba54-8bed76f63930",
    attrs := [("class", ["access_control_profile", "object"]),
              ("uuid", ["cc8e95b4-c24f-4d68-ba54-8bed76f63930"])] }

/-- A stored rule entry with all profile attributes present but an
unparseable `acp_receiver` string. -/
def c8FullEntry : Entry :=
  { uuid := "cc8e95b4-c24f-4d68-ba54-8bed76f63930",
    attrs := [("acp_receiver", ["notjson"]),
              ("acp_targetscope", ["alsonotjson"]),
              ("class", ["access_control_profile", "object"]),
              ("name", ["acp_invalid"]),
              ("uuid", ["cc8e95b4-c24f-4d68-ba54-8bed76f63930"])] }

/-- C8 counterexample: the marker class is present, `acp_receiver` is a
single string and the parse function rejects every string, yet the parser
reports `Missing acp_targetscope` — not `Invalid acp_receiver` — because both
raw attributes are fetched before the receiver string is parsed. -/
theorem C8_counterexample :
    attribute_value_pres c8ReceiverEntry "class" "access_control_profile"
      = true ∧
    get_ava_single c8ReceiverEntry "acp_receiver" = some "notjson" ∧
    profile_try_from (β := ProtoFilter) (fun _ => none)
      (fun f => Except.ok f) (fun _ => Except.error (SchemaError.violation 0))
      c8ReceiverEntry
      = Except.error (OperationError.InvalidACPState
          "Missing acp_targetscope") :=
  ⟨rfl, rfl, rfl⟩

/-- C8 (amended): the common-profile parser fails with the named error for
each malformed input, following the source's check order: a missing marker
class gives `Missing access_control_profile`; with the marker present, a
`name` that is absent or not single-valued gives `Missing name`; and with
marker, `name`, `acp_receiver` and `acp_targetscope` all present and
single-valued, an `acp_receiver` string that does not parse gives
`Invalid acp_receiver`. -/
theorem C8_amended {β : Type} (parseJson : String → Option ProtoFilter)
    (fromRw : ProtoFilter → Except OperationError β)
    (validateF : β → Except SchemaError FilterValid) (value : Entry) :
    (attribute_value_pres value "class" "access_control_profile" = false →
      profile_try_from parseJson fromRw validateF value
        = Except.error (OperationError.InvalidACPState
            "Missing access_control_profile")) ∧
    (attribute_value_pres value "class" "access_control_profile" = true →
      get_ava_single value "name" = none →
      profile_try_from parseJson fromRw validateF value
        = Except.error (OperationError.InvalidACPState "Missing name")) ∧
    (∀ nm rRaw tRaw,
      attribute_value_pres value "class" "access_control_profile" = true →
      get_ava_single value "name" = some nm →
      get_ava_single value "acp_receiver" = some rRaw →
      get_ava_single value "acp_targetscope" = some tRaw →
      parseJson rRaw = none →
      profile_try_from parseJson fromRw validateF value
        = Except.error (OperationError.InvalidACPState
            "Invalid acp_receiver")) := by
  refine ⟨?_, ?_, ?_⟩
  · intro h1
    simp [profile_try_from, h1]
  · intro h1 h2
    simp [profile_try_from, h1, h2]
  · intro nm rRaw tRaw h1 h2 h3 h4 h5
    simp [profile_try_from, h1, h2, h3, h4, h5]

/-- C8 applied at a concrete input: with every profile attribute present and
single-valued, an unparseable `acp_receiver` yields `Invalid acp_receiver`. -/
theorem C8_witness :
    profile_try_from (β := ProtoFilter) (fun _ => none)
      (fun f => Except.ok f) (fun _ => Except.error (SchemaError.violation 0))
      c8FullEntry
      = Except.error (OperationError.InvalidACPState
          "Invalid acp_receiver") :=
  (C8_amended (fun _ => none) (fun f => Except.ok f)
    (fun _ => Except.error (SchemaError.violation 0)) c8FullEntry).2.2
    "acp_invalid" "notjson" "alsonotjson" rfl rfl rfl rfl rfl

end KanidmAccess
